import Mathlib

/-!
Verification of the tile-grid planning, fetch and mosaic-assembly engine of
the gmaps-gen repository (src/scripts/maps_core.py, maps_sequential.py,
maps_async.py, maps_fast.py, maps_mpi.py, maps.py).

The Python source is shallowly embedded:

* Coordinate projector (maps_core.latlon_to_pixel / pixel_to_latlon): the
  floating-point transcendental formulas are embedded over the reals.
* Grid planner (maps_core.calculate_tile_grid): the request-building double
  loop is embedded exactly; the floating-point front-end that derives
  num_rows and num_cols (cos/ceil arithmetic) is transcendental, so the loop
  is parameterised by the center pixel (cx, cy) and the integers num_rows,
  num_cols it receives from that front-end.  Python floats are dyadic
  rationals, so ℚ-valued parameters cover every float input.
* Tile fetcher retry loops (maps_core.download_single_tile,
  maps_async.download_tile_async): the HTTP transport is abstracted as a map
  from attempt number to an optional response (none models a raised
  network exception); the control flow of the loops is embedded branch by
  branch and instrumented with the number of HTTP requests issued.
* Mosaic assembler (maps_core.stitch_mosaic): PIL images are embedded as
  pixel functions with explicit integer dimensions; PIL's Image.paste is
  embedded as pointwise overwrite on the pasted rectangle.  The companion
  stitch_mosaic_streaming is imported by maps_sequential.py and
  maps_fast.py from maps_core but is absent from the sources, so it is
  modelled from the spec (section 4.5).
* Post-download threshold checks and the MPI partition arithmetic are
  embedded from the corresponding strategy drivers.
-/

namespace GmapsGen

/-! ## Coordinate projector (maps_core.py lines 22-38) -/

open Real in
/-- Embedding of maps_core.latlon_to_pixel: Web Mercator forward projection.
math.radians is multiplication by pi/180; the sine is clamped to
[-0.9999, 0.9999] before the log transform. -/
noncomputable def latlon_to_pixel (lat lon : ℝ) (zoom : ℕ) : ℝ × ℝ :=
  let world_px : ℝ := 256 * 2 ^ zoom
  let x := (lon + 180) / 360 * world_px
  let siny := Real.sin (lat * π / 180)
  let siny2 := max (-0.9999) (min 0.9999 siny)
  let y := (0.5 - Real.log ((1 + siny2) / (1 - siny2)) / (4 * π)) * world_px
  (x, y)

open Real in
/-- Embedding of maps_core.pixel_to_latlon: Web Mercator inverse projection.
math.degrees is multiplication by 180/pi. -/
noncomputable def pixel_to_latlon (x y : ℝ) (zoom : ℕ) : ℝ × ℝ :=
  let world_px : ℝ := 256 * 2 ^ zoom
  let lon := x / world_px * 360 - 180
  let n := π - 2 * π * y / world_px
  let lat := Real.arctan (Real.sinh n) * 180 / π
  (lat, lon)

/-! ## Grid planner (maps_core.py lines 41-98) -/

/-- One tile request as built by calculate_tile_grid.  The pixel-space
center of the tile is kept in exact rational arithmetic; the lat/lon pair
obtained by unprojecting it does not influence row, col or index. -/
structure TileRequest where
  x : ℚ
  y : ℚ
  row : ℕ
  col : ℕ
  index : ℕ

/-- Embedding of the request-building double loop of
maps_core.calculate_tile_grid: for i in range(num_rows), for j in
range(num_cols), a request with pixel center offset
((j - (num_cols-1)/2) * step, (i - (num_rows-1)/2) * step) from the bounding
box center (cx, cy) and index = i * num_cols + j.  num_rows, num_cols and
(cx, cy) are the values the floating-point front-end of the function
computes before the loop. -/
def calculate_tile_grid_requests (cx cy : ℚ) (step num_rows num_cols : ℕ) :
    List TileRequest :=
  (List.range num_rows).flatMap (fun (i : ℕ) =>
    (List.range num_cols).map (fun (j : ℕ) =>
      { x := cx + ((j : ℚ) - ((num_cols : ℚ) - 1) / 2) * (step : ℚ)
        y := cy + ((i : ℚ) - ((num_rows : ℚ) - 1) / 2) * (step : ℚ)
        row := i
        col := j
        index := i * num_cols + j }))

/-! ## Mosaic assembler (maps_core.py lines 161-183) -/

/-- A decoded PIL image: explicit integer dimensions plus a pixel function.
Pixel values are abstracted as natural numbers; 0 is the black background
used by Image.new('RGB', ..., color=(0,0,0)). -/
structure TileImage where
  w : ℤ
  h : ℤ
  px : ℤ → ℤ → ℕ

/-- One entry of the tiles list passed to stitch_mosaic: grid slot plus an
optional decoded image (tile.get('image') is None for a failed fetch). -/
structure Tile where
  row : ℕ
  col : ℕ
  image : Option TileImage

/-- The composed raster: its dimensions and its pixel function. -/
structure Mosaic where
  width : ℤ
  height : ℤ
  px : ℤ → ℤ → ℕ

/-- cropped_tile_width of stitch_mosaic: the full scaled tile width
(the bottom crop removes rows, not columns). -/
def cropped_tile_width (tile_size_px scale : ℕ) : ℤ :=
  (tile_size_px : ℤ) * (scale : ℤ)

/-- cropped_tile_height of stitch_mosaic: scaled tile height minus the
bottom crop. -/
def cropped_tile_height (tile_size_px scale crop_bottom : ℕ) : ℤ :=
  (tile_size_px : ℤ) * (scale : ℤ) - (crop_bottom : ℤ)

/-- Embedding of PIL Image.paste at offset (col * cw, row * ch): pixels
inside the pasted rectangle are overwritten, all others keep the previous
canvas value.  A tile without an image is skipped by stitch_mosaic. -/
def pasteOne (cw ch : ℤ) (canvas : ℤ → ℤ → ℕ) (t : Tile) : ℤ → ℤ → ℕ :=
  match t.image with
  | none => canvas
  | some img => fun x y =>
      if (t.col : ℤ) * cw ≤ x ∧ x < (t.col : ℤ) * cw + img.w ∧
         (t.row : ℤ) * ch ≤ y ∧ y < (t.row : ℤ) * ch + img.h then
        img.px (x - (t.col : ℤ) * cw) (y - (t.row : ℤ) * ch)
      else canvas x y

/-- The paste loop of stitch_mosaic over a black canvas. -/
def stitchPixels (cw ch : ℤ) (tiles : List Tile) : ℤ → ℤ → ℕ :=
  tiles.foldl (pasteOne cw ch) (fun _ _ => 0)

/-- Embedding of maps_core.stitch_mosaic: allocate a black raster of
num_cols * cropped_tile_width by num_rows * cropped_tile_height and paste
each tile that has an image at (col * cropped_tile_width,
row * cropped_tile_height), in list order. -/
def stitch_mosaic (tiles : List Tile)
    (num_rows num_cols tile_size_px scale crop_bottom : ℕ) : Mosaic :=
  { width := (num_cols : ℤ) * cropped_tile_width tile_size_px scale
    height := (num_rows : ℤ) * cropped_tile_height tile_size_px scale crop_bottom
    px := stitchPixels (cropped_tile_width tile_size_px scale)
      (cropped_tile_height tile_size_px scale crop_bottom) tiles }

/-- Decides whether pasting tile t writes pixel (x, y). -/
def coversB (cw ch x y : ℤ) (t : Tile) : Bool :=
  match t.image with
  | none => false
  | some img =>
      decide ((t.col : ℤ) * cw ≤ x ∧ x < (t.col : ℤ) * cw + img.w ∧
        (t.row : ℤ) * ch ≤ y ∧ y < (t.row : ℤ) * ch + img.h)

/-- The value tile t contributes at pixel (x, y) when it covers it. -/
def tileValue (cw ch x y : ℤ) (t : Tile) : ℕ :=
  match t.image with
  | none => 0
  | some img => img.px (x - (t.col : ℤ) * cw) (y - (t.row : ℤ) * ch)

/-- The value of the last element of a list of covering tiles, or the black
background when none covers. -/
def lastValue (cw ch x y : ℤ) (l : List Tile) : ℕ :=
  match l.getLast? with
  | some t => tileValue cw ch x y t
  | none => 0

/-- A tile image has the exact footprint the fetch pipeline produces: full
scaled width and bottom-cropped height. -/
def slotSized (cw ch : ℤ) (t : Tile) : Prop :=
  ∀ img, t.image = some img → img.w = cw ∧ img.h = ch

/-- Two tiles occupy different grid slots. -/
def distinctSlot (a b : Tile) : Prop := (a.row, a.col) ≠ (b.row, b.col)

/-- The per-slot lookup the streaming assembler receives: maps_sequential
and maps_fast build a dict keyed by (row, col) holding each successful
tile; with slots unique this is the first (and only) matching list entry. -/
def lookupOf (l : List Tile) (r c : ℕ) : Option TileImage :=
  (l.find? (fun t => decide (t.row = r) && decide (t.col = c))).bind
    (fun t => t.image)

/-- Row-major enumeration of every grid slot with its stored tile image. -/
def slotTiles (lookup : ℕ → ℕ → Option TileImage) (num_rows num_cols : ℕ) :
    List Tile :=
  (List.range num_rows).flatMap (fun (r : ℕ) =>
    (List.range num_cols).map (fun (c : ℕ) =>
      { row := r, col := c, image := lookup r c }))

/-- Modelled from the spec: stitch_mosaic_streaming is imported from
maps_core by maps_sequential.py and maps_fast.py but is absent from the
sources.  Spec section 4.5: the streaming assembler opens the output raster
once (same dimensions, black background), reads each stored tile in
row-major order and pastes it at pixel offset (col * cropped_width,
row * cropped_height) with the same cropping - byte-identical composition
logic, only the memory/I-O tradeoff differs. -/
def stitch_mosaic_streaming (lookup : ℕ → ℕ → Option TileImage)
    (num_rows num_cols tile_size_px scale crop_bottom : ℕ) : Mosaic :=
  { width := (num_cols : ℤ) * cropped_tile_width tile_size_px scale
    height := (num_rows : ℤ) * cropped_tile_height tile_size_px scale crop_bottom
    px := stitchPixels (cropped_tile_width tile_size_px scale)
      (cropped_tile_height tile_size_px scale crop_bottom)
      (slotTiles lookup num_rows num_cols) }

/-! ## Tile fetcher retry loops (maps_core.py lines 101-158,
maps_async.py lines 33-88) -/

/-- An HTTP response: status code and whether the content-type header
starts with image.  The transport is a map from attempt number to
Option Response; none models a raised network/timeout exception. -/
structure Response where
  status : ℕ
  isImage : Bool
deriving DecidableEq

/-- Retry loop of maps_core.download_single_tile, instrumented with the
number of HTTP requests issued.  raise_for_status raises for status >= 400;
a 4xx other than 429 returns None at once; other HTTP errors and
exceptions retry until the attempt budget (the fuel) is exhausted; a
non-error response returns the decoded image only when the content-type is
an image, and None otherwise without any retry. -/
def coreFetchGo (resp : ℕ → Option Response) (attempt : ℕ) :
    ℕ → Bool × ℕ
  | 0 => (false, 0)
  | fuel + 1 =>
    match resp attempt with
    | some r =>
        if r.status < 400 then
          if r.isImage then (true, 1) else (false, 1)
        else if 400 ≤ r.status ∧ r.status < 500 ∧ r.status ≠ 429 then
          (false, 1)
        else
          let rec2 := coreFetchGo resp (attempt + 1) fuel
          (rec2.1, rec2.2 + 1)
    | none =>
        let rec2 := coreFetchGo resp (attempt + 1) fuel
        (rec2.1, rec2.2 + 1)

/-- download_single_tile runs its loop for max_retries attempts starting at
attempt 0.  Returns (image decoded, number of HTTP requests issued). -/
def download_single_tile_fetch (resp : ℕ → Option Response)
    (max_retries : ℕ) : Bool × ℕ :=
  coreFetchGo resp 0 max_retries

/-- Retry loop of maps_async.download_tile_async, instrumented with the
number of HTTP requests issued.  A 200 with image content-type succeeds; a
200 with any other content-type falls through to the next attempt (it is
retried); a 429 sleeps and retries; any other status breaks out of the
loop at once; an exception is swallowed and the loop continues. -/
def asyncFetchGo (resp : ℕ → Option Response) (attempt : ℕ) :
    ℕ → Bool × ℕ
  | 0 => (false, 0)
  | fuel + 1 =>
    match resp attempt with
    | some r =>
        if r.status = 200 ∧ r.isImage then (true, 1)
        else if r.status = 200 then
          let rec2 := asyncFetchGo resp (attempt + 1) fuel
          (rec2.1, rec2.2 + 1)
        else if r.status = 429 then
          let rec2 := asyncFetchGo resp (attempt + 1) fuel
          (rec2.1, rec2.2 + 1)
        else (false, 1)
    | none =>
        let rec2 := asyncFetchGo resp (attempt + 1) fuel
        (rec2.1, rec2.2 + 1)

/-- download_tile_async runs its loop for a hard-coded 3 attempts. -/
def download_tile_async_fetch (resp : ℕ → Option Response) : Bool × ℕ :=
  asyncFetchGo resp 0 3

/-! ## Post-download threshold checks of the four strategy drivers -/

/-- maps_sequential.py line 140 (and line 95 in disk mode): the job aborts
when success_count < total_tiles * 0.5.  Python evaluates the comparison
exactly (0.5 is a dyadic float), embedded over ℚ. -/
def seq_too_many_failures (success_count total_tiles : ℕ) : Bool :=
  decide ((success_count : ℚ) < (total_tiles : ℚ) * (1 / 2))

/-- maps_async.py line 200: identical comparison to the sequential driver. -/
def async_too_many_failures (success_count total_tiles : ℕ) : Bool :=
  decide ((success_count : ℚ) < (total_tiles : ℚ) * (1 / 2))

/-- maps_fast.py: download_satellite_map_fast performs no success-count
threshold check in either disk or memory mode; it always proceeds to
stitch. -/
def fast_too_many_failures (_success_count _total_tiles : ℕ) : Bool :=
  false

/-- maps_mpi.py: after gathering, rank 0 performs no success-count
threshold check; it always proceeds to stitch. -/
def mpi_too_many_failures (_success_count _total_tiles : ℕ) : Bool :=
  false

/-! ## Distributed partition (maps_mpi.py lines 99-108) -/

/-- start_idx of a rank: rank * (total // size) + min(rank, total % size). -/
def mpi_start (total size rank : ℕ) : ℕ :=
  rank * (total / size) + min rank (total % size)

/-- Number of tiles a rank receives: total // size, plus one when
rank < total % size. -/
def mpi_count (total size rank : ℕ) : ℕ :=
  total / size + if rank < total % size then 1 else 0

/-- my_tiles = tile_requests[start_idx:end_idx], a contiguous slice. -/
def mpi_share {α : Type} (reqs : List α) (size rank : ℕ) : List α :=
  (reqs.drop (mpi_start reqs.length size rank)).take
    (mpi_count reqs.length size rank)

/-! ## Unified entry point dispatch (maps.py lines 73-110,
maps_fast.py lines 175-188) -/

/-- The declared parameter names of maps_fast.download_satellite_map_fast,
in order.  The signature has no rate_limit parameter and no kwargs
catch-all. -/
def download_satellite_map_fast_params : List String :=
  ["lat_min", "lat_max", "lon_min", "lon_max", "zoom", "tile_size_px",
   "scale", "crop_bottom", "api_key", "secret", "max_workers", "verbose",
   "output_path", "use_disk"]

/-- The keyword arguments maps.py passes to download_satellite_map_fast on
the default (non-sequential) path, after ten positional arguments. -/
def maps_fast_call_kwargs : List String :=
  ["max_workers", "rate_limit", "verbose"]

/-- Number of positional arguments in that call (lat_min, lat_max, lon_min,
lon_max, zoom, tile_size_px, scale, crop_bottom, api_key, secret). -/
def maps_fast_call_positional_count : ℕ := 10

/-- Python call binding for a signature without *args or **kwargs: the
call binds iff the positionals fit, every keyword names a declared
parameter, no keyword re-binds a positionally filled parameter and no
keyword repeats.  Otherwise the call raises TypeError before the function
body runs. -/
def python_call_binds (params : List String) (npos : ℕ)
    (kwargs : List String) : Bool :=
  decide (npos ≤ params.length) &&
  kwargs.all (fun k => params.contains k && !((params.take npos).contains k)) &&
  decide kwargs.Nodup

/-- Outcome of the unified entry point before any tile is fetched. -/
inductive DispatchOutcome where
  | sequential_run : DispatchOutcome
  | fast_run : DispatchOutcome
  | type_error : DispatchOutcome
deriving DecidableEq

/-- Embedding of maps.download_satellite_map's strategy selection: with
force_sequential it delegates to the sequential driver; otherwise it calls
download_satellite_map_fast with ten positional arguments and keywords
max_workers, rate_limit, verbose (only ImportError is caught around that
call, so a binding failure propagates as TypeError before any fetch). -/
def download_satellite_map_dispatch (force_sequential : Bool) :
    DispatchOutcome :=
  if force_sequential then .sequential_run
  else if python_call_binds download_satellite_map_fast_params
      maps_fast_call_positional_count maps_fast_call_kwargs then .fast_run
  else .type_error

/-! ## Helper lemmas -/

lemma range_flatMap_row_major (nr nc : ℕ) :
    (List.range nr).flatMap (fun i => (List.range nc).map (fun j => i * nc + j)) =
      List.range (nr * nc) := by
  induction nr with
  | zero => simp
  | succ n ih =>
    rw [List.range_succ, List.flatMap_append, ih, Nat.succ_mul, List.range_add]
    simp

lemma calculate_tile_grid_requests_map_index (cx cy : ℚ) (step nr nc : ℕ) :
    (calculate_tile_grid_requests cx cy step nr nc).map (fun t => t.index) =
      List.range (nr * nc) := by
  unfold calculate_tile_grid_requests
  rw [List.map_flatMap]
  simpa [List.map_map, Function.comp] using range_flatMap_row_major nr nc

/-- Claim C1: for every bounding box, zoom and tile size, the grid planner
returns a request list of length num_rows * num_cols whose index values are
exactly 0 .. num_rows * num_cols - 1 in row-major order with no gaps or
duplicates, and every request carries index = row * num_cols + col. -/
theorem C1_grid_planner_indices (cx cy : ℚ) (step num_rows num_cols : ℕ) :
    (calculate_tile_grid_requests cx cy step num_rows num_cols).length =
        num_rows * num_cols ∧
    (calculate_tile_grid_requests cx cy step num_rows num_cols).map
        (fun t => t.index) = List.range (num_rows * num_cols) ∧
    ∀ t ∈ calculate_tile_grid_requests cx cy step num_rows num_cols,
        t.index = t.row * num_cols + t.col := by
  refine ⟨?_, calculate_tile_grid_requests_map_index cx cy step num_rows num_cols, ?_⟩
  · have h := congrArg List.length
      (calculate_tile_grid_requests_map_index cx cy step num_rows num_cols)
    simpa using h
  · intro t ht
    unfold calculate_tile_grid_requests at ht
    simp only [List.mem_flatMap, List.mem_map, List.mem_range] at ht
    obtain ⟨i, _, j, _, rfl⟩ := ht
    rfl

lemma stitchPixels_concat (cw ch : ℤ) (l : List Tile) (t : Tile) :
    stitchPixels cw ch (l ++ [t]) = pasteOne cw ch (stitchPixels cw ch l) t := by
  unfold stitchPixels
  rw [List.foldl_append]
  rfl

lemma pasteOne_eq (cw ch : ℤ) (c : ℤ → ℤ → ℕ) (t : Tile) (x y : ℤ) :
    pasteOne cw ch c t x y =
      if coversB cw ch x y t then tileValue cw ch x y t else c x y := by
  cases h : t.image with
  | none => simp [pasteOne, coversB, h]
  | some img =>
    simp only [pasteOne, coversB, tileValue, h]
    by_cases hc : (t.col : ℤ) * cw ≤ x ∧ x < (t.col : ℤ) * cw + img.w ∧
        (t.row : ℤ) * ch ≤ y ∧ y < (t.row : ℤ) * ch + img.h
    · simp [hc]
    · simp [hc]

lemma lastValue_concat (cw ch x y : ℤ) (l : List Tile) (t : Tile) :
    lastValue cw ch x y (l ++ [t]) = tileValue cw ch x y t := by
  simp [lastValue, List.getLast?_concat]

lemma stitchPixels_char (cw ch x y : ℤ) (l : List Tile) :
    stitchPixels cw ch l x y = lastValue cw ch x y (l.filter (coversB cw ch x y)) := by
  induction l using List.reverseRecOn with
  | nil => rfl
  | append_singleton l t ih =>
    rw [stitchPixels_concat, pasteOne_eq, List.filter_append]
    cases hcov : coversB cw ch x y t with
    | false => simpa [List.filter_cons, hcov] using ih
    | true => simp [List.filter_cons, hcov, lastValue_concat]

lemma col_unique {w x : ℤ} {c1 c2 : ℕ} (h1 : (c1 : ℤ) * w ≤ x)
    (h2 : x < (c1 : ℤ) * w + w) (h3 : (c2 : ℤ) * w ≤ x)
    (h4 : x < (c2 : ℤ) * w + w) : c1 = c2 := by
  have hw : 0 < w := by linarith
  have hle : ∀ a b : ℕ, (a : ℤ) * w ≤ x → x < (b : ℤ) * w + w → a ≤ b := by
    intro a b ha hb
    by_contra hab
    push_neg at hab
    have hba : (b : ℤ) + 1 ≤ (a : ℤ) := by exact_mod_cast hab
    have : ((b : ℤ) + 1) * w ≤ (a : ℤ) * w :=
      mul_le_mul_of_nonneg_right hba (le_of_lt hw)
    nlinarith
  exact le_antisymm (hle c1 c2 h1 h4) (hle c2 c1 h3 h2)

lemma covers_slot_eq {cw ch x y : ℤ} {a b : Tile}
    (hsa : slotSized cw ch a) (hsb : slotSized cw ch b)
    (ha : coversB cw ch x y a = true) (hb : coversB cw ch x y b = true) :
    (a.row, a.col) = (b.row, b.col) := by
  cases hia : a.image with
  | none => simp [coversB, hia] at ha
  | some ia =>
    cases hib : b.image with
    | none => simp [coversB, hib] at hb
    | some ib =>
      obtain ⟨haw, hah⟩ := hsa ia hia
      obtain ⟨hbw, hbh⟩ := hsb ib hib
      simp only [coversB, hia, hib, decide_eq_true_eq] at ha hb
      obtain ⟨ha1, ha2, ha3, ha4⟩ := ha
      obtain ⟨hb1, hb2, hb3, hb4⟩ := hb
      rw [haw] at ha2
      rw [hah] at ha4
      rw [hbw] at hb2
      rw [hbh] at hb4
      have hcol : a.col = b.col := col_unique ha1 ha2 hb1 hb2
      have hrow : a.row = b.row := col_unique ha3 ha4 hb3 hb4
      rw [hcol, hrow]

lemma filter_covers_length_le_one {cw ch x y : ℤ} {l : List Tile}
    (hdist : l.Pairwise distinctSlot)
    (hsz : ∀ t ∈ l, slotSized cw ch t) :
    (l.filter (coversB cw ch x y)).length ≤ 1 := by
  have hsub := List.filter_sublist (p := coversB cw ch x y) l
  have hpf : (l.filter (coversB cw ch x y)).Pairwise distinctSlot :=
    List.Pairwise.sublist hsub hdist
  rcases hfl : l.filter (coversB cw ch x y) with _ | ⟨a, _ | ⟨b, rest⟩⟩
  · simp
  · simp
  · exfalso
    rw [hfl] at hpf
    have hab : distinctSlot a b := (List.pairwise_cons.mp hpf).1 b (by simp)
    have hma : a ∈ l.filter (coversB cw ch x y) := by rw [hfl]; simp
    have hmb : b ∈ l.filter (coversB cw ch x y) := by rw [hfl]; simp
    obtain ⟨hal, hac⟩ := List.mem_filter.mp hma
    obtain ⟨hbl, hbc⟩ := List.mem_filter.mp hmb
    exact hab (covers_slot_eq (hsz a hal) (hsz b hbl) hac hbc)

lemma perm_eq_of_length_le_one {l1 l2 : List Tile} (h : l1.Perm l2)
    (hlen : l1.length ≤ 1) : l1 = l2 := by
  match l1, hlen with
  | [], _ => exact (List.perm_nil.mp h.symm).symm
  | [a], _ => exact (List.perm_singleton.mp h.symm).symm
  | a :: b :: t, hlen => simp at hlen

lemma distinctSlot_symm {a b : Tile} (h : distinctSlot a b) : distinctSlot b a :=
  Ne.symm h

/-- Claim C2 counterexample: stitch_mosaic does not crop the tile width, so
a 6x6 grid with tile_size_px=640, scale=2, crop_bottom=40 yields a mosaic of
width 6 * (640*2) = 7680, not 6 * (640*2 - 40) = 7440 as the claim states. -/
theorem C2_counterexample :
    (stitch_mosaic [] 6 6 640 2 40).width = 7680 ∧
    (7680 : ℤ) ≠ (6 : ℤ) * ((640 : ℤ) * 2 - 40) := by
  constructor
  · norm_num [stitch_mosaic, cropped_tile_width]
  · decide

/-- Claim C2 (amended): the assembled mosaic has width
num_cols * (tile_size_px * scale) - the crop removes only bottom rows - and
height num_rows * (tile_size_px * scale - crop_bottom); in particular a 6x6
grid with tile_size_px=640, scale=2, crop_bottom=40 yields width
6 * (640*2) = 7680 and height 6 * (640*2 - 40) = 7440, for every
tile-result set. -/
theorem C2_amended (tiles : List Tile)
    (num_rows num_cols tile_size_px scale crop_bottom : ℕ) :
    (stitch_mosaic tiles num_rows num_cols tile_size_px scale crop_bottom).width
        = (num_cols : ℤ) * ((tile_size_px : ℤ) * (scale : ℤ)) ∧
    (stitch_mosaic tiles num_rows num_cols tile_size_px scale crop_bottom).height
        = (num_rows : ℤ) * ((tile_size_px : ℤ) * (scale : ℤ) - (crop_bottom : ℤ)) ∧
    (stitch_mosaic tiles 6 6 640 2 40).width = 7680 ∧
    (stitch_mosaic tiles 6 6 640 2 40).height = 7440 := by
  refine ⟨rfl, rfl, ?_, ?_⟩ <;>
    norm_num [stitch_mosaic, cropped_tile_width, cropped_tile_height]

/-- Claim C8: mosaic dimensions are a pure function of the grid metadata:
any two tile-result sets over the same grid metadata produce mosaics of
identical width and height, whatever their success/failure patterns. -/
theorem C8_dimensions_independent_of_successes (l1 l2 : List Tile)
    (num_rows num_cols tile_size_px scale crop_bottom : ℕ) :
    (stitch_mosaic l1 num_rows num_cols tile_size_px scale crop_bottom).width =
      (stitch_mosaic l2 num_rows num_cols tile_size_px scale crop_bottom).width ∧
    (stitch_mosaic l1 num_rows num_cols tile_size_px scale crop_bottom).height =
      (stitch_mosaic l2 num_rows num_cols tile_size_px scale crop_bottom).height :=
  ⟨rfl, rfl⟩

/-- Claim C7: for a tile-result set in which no two tiles share a (row, col)
slot - the tile images carrying the fetcher's footprint of
tile_size_px * scale by tile_size_px * scale - crop_bottom pixels - feeding
stitch_mosaic the set in any permutation produces a pixel-identical
mosaic. -/
theorem C7_stitch_permutation_invariant (l1 l2 : List Tile)
    (num_rows num_cols tile_size_px scale crop_bottom : ℕ)
    (hperm : l1.Perm l2)
    (hdist : l1.Pairwise distinctSlot)
    (hsz : ∀ t ∈ l1, slotSized (cropped_tile_width tile_size_px scale)
      (cropped_tile_height tile_size_px scale crop_bottom) t) :
    stitch_mosaic l1 num_rows num_cols tile_size_px scale crop_bottom =
      stitch_mosaic l2 num_rows num_cols tile_size_px scale crop_bottom := by
  have hpx : stitchPixels (cropped_tile_width tile_size_px scale)
      (cropped_tile_height tile_size_px scale crop_bottom) l1 =
      stitchPixels (cropped_tile_width tile_size_px scale)
        (cropped_tile_height tile_size_px scale crop_bottom) l2 := by
    funext x y
    rw [stitchPixels_char, stitchPixels_char]
    have hp := hperm.filter (coversB (cropped_tile_width tile_size_px scale)
      (cropped_tile_height tile_size_px scale crop_bottom) x y)
    rw [perm_eq_of_length_le_one hp (filter_covers_length_le_one hdist hsz)]
  unfold stitch_mosaic
  rw [hpx]

/-- Witness for claim C7 at a concrete 1x2 grid with two swapped tiles. -/
theorem C7_witness :
    stitch_mosaic
        [{ row := 0, col := 0, image := some { w := 1, h := 1, px := fun _ _ => 5 } },
         { row := 0, col := 1, image := some { w := 1, h := 1, px := fun _ _ => 7 } }]
        1 2 1 1 0 =
      stitch_mosaic
        [{ row := 0, col := 1, image := some { w := 1, h := 1, px := fun _ _ => 7 } },
         { row := 0, col := 0, image := some { w := 1, h := 1, px := fun _ _ => 5 } }]
        1 2 1 1 0 := by
  apply C7_stitch_permutation_invariant
  · exact List.Perm.swap _ _ _
  · refine List.Pairwise.cons ?_ (List.pairwise_singleton _ _)
    intro b hb
    rw [List.mem_singleton] at hb
    subst hb
    show distinctSlot _ _
    unfold distinctSlot
    decide
  · intro t ht
    rw [List.mem_cons, List.mem_singleton] at ht
    rcases ht with rfl | rfl <;>
      exact fun img him => by cases him; exact ⟨by decide, by decide⟩

lemma find?_slot_self {l : List Tile} (hdist : l.Pairwise distinctSlot)
    {t : Tile} (ht : t ∈ l) :
    l.find? (fun u => decide (u.row = t.row) && decide (u.col = t.col)) =
      some t := by
  induction l with
  | nil => cases ht
  | cons a l ih =>
    obtain ⟨hhead, htail⟩ := List.pairwise_cons.mp hdist
    rcases List.mem_cons.mp ht with rfl | hmem
    · rw [List.find?_cons_of_pos _ (by simp)]
    · rw [List.find?_cons_of_neg _ ?_]
      · exact ih htail hmem
      · simp only [Bool.and_eq_true, decide_eq_true_eq, not_and]
        intro hr hc
        exact absurd (by rw [hr, hc] : (a.row, a.col) = (t.row, t.col))
          (hhead t hmem)

lemma lookupOf_mem_eq {l : List Tile} (hdist : l.Pairwise distinctSlot)
    {t : Tile} (ht : t ∈ l) : lookupOf l t.row t.col = t.image := by
  unfold lookupOf
  rw [find?_slot_self hdist ht]
  rfl

lemma mem_slotTiles {lookup : ℕ → ℕ → Option TileImage} {nr nc : ℕ}
    {u : Tile} :
    u ∈ slotTiles lookup nr nc ↔
      u.row < nr ∧ u.col < nc ∧ u.image = lookup u.row u.col := by
  unfold slotTiles
  simp only [List.mem_flatMap, List.mem_map, List.mem_range]
  constructor
  · rintro ⟨r, hr, c, hc, rfl⟩
    exact ⟨hr, hc, rfl⟩
  · rintro ⟨hr, hc, him⟩
    refine ⟨u.row, hr, u.col, hc, ?_⟩
    rw [← him]

lemma slotTiles_pairwise (lookup : ℕ → ℕ → Option TileImage) (nr nc : ℕ) :
    (slotTiles lookup nr nc).Pairwise distinctSlot := by
  induction nr with
  | zero => simp [slotTiles]
  | succ n ih =>
    have hstep : slotTiles lookup (n + 1) nc =
        slotTiles lookup n nc ++
          (List.range nc).map (fun (c : ℕ) =>
            { row := n, col := c, image := lookup n c }) := by
      unfold slotTiles
      rw [List.range_succ, List.flatMap_append]
      simp
    rw [hstep, List.pairwise_append]
    refine ⟨ih, ?_, ?_⟩
    · rw [List.pairwise_map]
      refine (List.pairwise_lt_range nc).imp ?_
      intro c1 c2 hlt
      show ((n, c1) : ℕ × ℕ) ≠ (n, c2)
      intro h
      exact absurd (congrArg Prod.snd h) (Nat.ne_of_lt hlt)
    · intro a ha b hb
      have hra : a.row < n := (mem_slotTiles.mp ha).1
      rw [List.mem_map] at hb
      obtain ⟨c, _, rfl⟩ := hb
      show (a.row, a.col) ≠ (n, c)
      intro h
      exact absurd (congrArg Prod.fst h) (Nat.ne_of_lt hra)

lemma lookupOf_slotSized {cw ch : ℤ} {l : List Tile}
    (hsz : ∀ t ∈ l, slotSized cw ch t) (r c : ℕ)
    {im : Option TileImage} (him : im = lookupOf l r c) {u : Tile}
    (hu : u.image = im) : slotSized cw ch u := by
  intro img himg
  rw [hu, him] at himg
  unfold lookupOf at himg
  cases hf : l.find? (fun t => decide (t.row = r) && decide (t.col = c)) with
  | none => rw [hf] at himg; cases himg
  | some t =>
    rw [hf] at himg
    simp only [Option.some_bind] at himg
    exact hsz t (List.mem_of_find?_eq_some hf) img himg

lemma eq_of_length_le_one_of_mem_iff {l1 l2 : List Tile}
    (h1 : l1.length ≤ 1) (h2 : l2.length ≤ 1)
    (hm : ∀ u, u ∈ l1 ↔ u ∈ l2) : l1 = l2 := by
  rcases l1 with _ | ⟨a, _ | ⟨a2, t1⟩⟩
  · rcases l2 with _ | ⟨b, t2⟩
    · rfl
    · exact absurd ((hm b).mpr (by simp)) (by simp)
  · rcases l2 with _ | ⟨b, _ | ⟨b2, t2⟩⟩
    · exact absurd ((hm a).mp (by simp)) (by simp)
    · have hab : a = b := by
        have := (hm a).mp (by simp)
        rw [List.mem_singleton] at this
        exact this
      rw [hab]
    · simp at h2
  · simp at h1

lemma coversB_image_ne_none {cw ch x y : ℤ} {t : Tile}
    (h : coversB cw ch x y t = true) : t.image ≠ none := by
  intro hn
  rw [coversB, hn] at h
  cases h

/-- Claim C4: the in-memory assembler and the streaming assembler produce
identical composition for the same tiles and grid metadata: same offsets,
same cropping, same black background for failed slots.  The streaming side
receives the per-slot dictionary the drivers build from the result list. -/
theorem C4_streaming_matches_memory (l : List Tile)
    (num_rows num_cols tile_size_px scale crop_bottom : ℕ)
    (hdist : l.Pairwise distinctSlot)
    (hsz : ∀ t ∈ l, slotSized (cropped_tile_width tile_size_px scale)
      (cropped_tile_height tile_size_px scale crop_bottom) t)
    (hrow : ∀ t ∈ l, t.row < num_rows)
    (hcol : ∀ t ∈ l, t.col < num_cols) :
    stitch_mosaic l num_rows num_cols tile_size_px scale crop_bottom =
      stitch_mosaic_streaming (lookupOf l) num_rows num_cols tile_size_px
        scale crop_bottom := by
  have hpx : stitchPixels (cropped_tile_width tile_size_px scale)
      (cropped_tile_height tile_size_px scale crop_bottom) l =
      stitchPixels (cropped_tile_width tile_size_px scale)
        (cropped_tile_height tile_size_px scale crop_bottom)
        (slotTiles (lookupOf l) num_rows num_cols) := by
    funext x y
    rw [stitchPixels_char, stitchPixels_char]
    have hsz2 : ∀ u ∈ slotTiles (lookupOf l) num_rows num_cols,
        slotSized (cropped_tile_width tile_size_px scale)
          (cropped_tile_height tile_size_px scale crop_bottom) u := by
      intro u hu
      obtain ⟨_, _, him⟩ := mem_slotTiles.mp hu
      exact lookupOf_slotSized hsz u.row u.col him rfl
    have hmem : ∀ u, u ∈ l.filter (coversB (cropped_tile_width tile_size_px scale)
        (cropped_tile_height tile_size_px scale crop_bottom) x y) ↔
        u ∈ (slotTiles (lookupOf l) num_rows num_cols).filter
          (coversB (cropped_tile_width tile_size_px scale)
            (cropped_tile_height tile_size_px scale crop_bottom) x y) := by
      intro u
      rw [List.mem_filter, List.mem_filter]
      constructor
      · rintro ⟨hul, hcov⟩
        refine ⟨mem_slotTiles.mpr ⟨hrow u hul, hcol u hul, ?_⟩, hcov⟩
        exact (lookupOf_mem_eq hdist hul).symm
      · rintro ⟨hus, hcov⟩
        obtain ⟨_, _, him⟩ := mem_slotTiles.mp hus
        have hne := coversB_image_ne_none hcov
        rw [him] at hne
        unfold lookupOf at him hne
        cases hf : l.find? (fun t => decide (t.row = u.row) &&
            decide (t.col = u.col)) with
        | none => rw [hf] at hne; exact absurd rfl hne
        | some t =>
          rw [hf] at him
          simp only [Option.some_bind] at him
          have htl := List.mem_of_find?_eq_some hf
          have hpt := List.find?_some hf
          simp only [Bool.and_eq_true, decide_eq_true_eq] at hpt
          have hut : u = t := by
            cases u
            cases t
            simp only [Tile.mk.injEq]
            exact ⟨hpt.1.symm, hpt.2.symm, him⟩
          rw [hut]
          exact ⟨htl, by rw [← hut]; exact hcov⟩
    rw [eq_of_length_le_one_of_mem_iff
      (filter_covers_length_le_one hdist hsz)
      (filter_covers_length_le_one
        (slotTiles_pairwise (lookupOf l) num_rows num_cols) hsz2) hmem]
  unfold stitch_mosaic stitch_mosaic_streaming
  rw [hpx]

/-- Witness for claim C4 at a concrete 1x1 grid with a single tile. -/
theorem C4_witness :
    stitch_mosaic
        [{ row := 0, col := 0, image := some { w := 1, h := 1, px := fun _ _ => 9 } }]
        1 1 1 1 0 =
      stitch_mosaic_streaming
        (lookupOf
          [{ row := 0, col := 0, image := some { w := 1, h := 1, px := fun _ _ => 9 } }])
        1 1 1 1 0 := by
  apply C4_streaming_matches_memory
  · exact List.pairwise_singleton _ _
  · intro t ht
    rw [List.mem_singleton] at ht
    subst ht
    exact fun img him => by cases him; exact ⟨by decide, by decide⟩
  · intro t ht
    rw [List.mem_singleton] at ht
    subst ht
    decide
  · intro t ht
    rw [List.mem_singleton] at ht
    subst ht
    decide

/-- Claim C3 counterexample: the fast-parallel and distributed drivers
perform no success-threshold check at all, so a job with 1 success out of 4
tiles (below the 0.5 floor) still proceeds to stitch under them, contrary to
the claim that every strategy aborts with TooManyFailures. -/
theorem C3_counterexample :
    fast_too_many_failures 1 4 = false ∧
    mpi_too_many_failures 1 4 = false ∧
    (1 : ℚ) < (4 : ℚ) * (1 / 2) := by
  refine ⟨rfl, rfl, by norm_num⟩

/-- Claim C3 (amended): only the sequential and async drivers enforce the
threshold; they abort exactly when success_count < 0.5 * total_tiles
(strict comparison, so exactly half the tiles succeeding proceeds and one
fewer success aborts).  The fast-parallel and distributed (MPI) drivers
never perform the check and always proceed to stitch. -/
theorem C3_amended_threshold (success_count total_tiles : ℕ) :
    (seq_too_many_failures success_count total_tiles = true ↔
      2 * success_count < total_tiles) ∧
    async_too_many_failures success_count total_tiles =
      seq_too_many_failures success_count total_tiles ∧
    fast_too_many_failures success_count total_tiles = false ∧
    mpi_too_many_failures success_count total_tiles = false := by
  refine ⟨?_, rfl, rfl, rfl⟩
  unfold seq_too_many_failures
  have hq : ((success_count : ℚ) < (total_tiles : ℚ) * (1 / 2)) ↔
      ((2 * success_count : ℕ) : ℚ) < ((total_tiles : ℕ) : ℚ) := by
    push_cast
    constructor <;> intro h <;> linarith
  simp only [decide_eq_true_eq, hq, Nat.cast_lt]

lemma mpi_start_zero (total P : ℕ) : mpi_start total P 0 = 0 := by
  unfold mpi_start
  simp

lemma mpi_start_succ (total P r : ℕ) :
    mpi_start total P (r + 1) = mpi_start total P r + mpi_count total P r := by
  unfold mpi_start mpi_count
  rw [Nat.succ_mul]
  rcases Nat.lt_or_ge r (total % P) with h | h
  · rw [if_pos h, min_eq_left (by omega), min_eq_left (by omega)]
    omega
  · rw [if_neg (by omega), min_eq_right (by omega), min_eq_right (by omega)]
    omega

lemma mpi_start_full (total P : ℕ) (hP : 1 ≤ P) :
    mpi_start total P P = total := by
  unfold mpi_start
  rw [min_eq_right (le_of_lt (Nat.mod_lt total hP))]
  exact Nat.div_add_mod total P

lemma mpi_start_mono (total P : ℕ) {a b : ℕ} (h : a ≤ b) :
    mpi_start total P a ≤ mpi_start total P b := by
  unfold mpi_start
  exact Nat.add_le_add (Nat.mul_le_mul_right _ h) (min_le_min h le_rfl)

lemma mpi_cover_aux {α : Type} (reqs : List α) (P : ℕ) :
    ∀ j, (List.range j).flatMap (fun rank => mpi_share reqs P rank) =
      reqs.take (mpi_start reqs.length P j) := by
  intro j
  induction j with
  | zero => simp [mpi_start_zero]
  | succ n ih =>
    rw [List.range_succ, List.flatMap_append, ih]
    simp only [List.flatMap_cons, List.flatMap_nil, List.append_nil]
    rw [mpi_start_succ, List.take_add]
    rfl

/-- Claim C9: for every request list and every worker count P >= 1, the
distributed driver's static partition gives each rank the contiguous slice
starting at rank * floor(total/P) + min(rank, total mod P) of size
floor(total/P) plus one extra for the first total mod P ranks; the shares
concatenate, in rank order, back to exactly the full request list, so they
are pairwise disjoint, index-contiguous, and cover 0..total-1. -/
theorem C9_mpi_partition {α : Type} (reqs : List α) (P : ℕ) (hP : 1 ≤ P) :
    (List.range P).flatMap (fun rank => mpi_share reqs P rank) = reqs ∧
    ∀ rank, rank < P → (mpi_share reqs P rank).length =
      reqs.length / P + (if rank < reqs.length % P then 1 else 0) := by
  constructor
  · rw [mpi_cover_aux reqs P P, mpi_start_full reqs.length P hP]
    exact List.take_length reqs
  · intro rank hrank
    have hend : mpi_start reqs.length P rank + mpi_count reqs.length P rank ≤
        reqs.length := by
      rw [← mpi_start_succ]
      calc mpi_start reqs.length P (rank + 1)
          ≤ mpi_start reqs.length P P := mpi_start_mono _ _ (by omega)
        _ = reqs.length := mpi_start_full reqs.length P hP
    show ((reqs.drop (mpi_start reqs.length P rank)).take
        (mpi_count reqs.length P rank)).length = _
    rw [List.length_take, List.length_drop]
    have : mpi_count reqs.length P rank ≤
        reqs.length - mpi_start reqs.length P rank := by omega
    rw [min_eq_left this]
    rfl

/-- Witness for claim C9: seven requests split across three workers into
contiguous shares [0,1,2], [3,4], [5,6]. -/
theorem C9_witness :
    (List.range 3).flatMap
        (fun rank => mpi_share [0, 1, 2, 3, 4, 5, 6] 3 rank) =
      [0, 1, 2, 3, 4, 5, 6] ∧
    ∀ rank, rank < 3 → (mpi_share [0, 1, 2, 3, 4, 5, 6] 3 rank).length =
      7 / 3 + (if rank < 7 % 3 then 1 else 0) :=
  C9_mpi_partition [0, 1, 2, 3, 4, 5, 6] 3 (by decide)

/-- Claim C10: with force_sequential=False the unified entry point takes the
fast-parallel path and calls download_satellite_map_fast with a rate_limit
keyword its signature does not declare, so the call raises TypeError at
binding time, before any tile is fetched. -/
theorem C10_default_path_type_error :
    download_satellite_map_dispatch false = DispatchOutcome.type_error ∧
    download_satellite_map_fast_params.contains "rate_limit" = false := by
  constructor
  · rfl
  · rfl

/-- Claim C6 counterexample: the async fetcher retries an HTTP 200 response
with a non-image content-type - the loop body simply falls through to the
next attempt - so it issues 3 HTTP requests, not exactly one as the claim
states for every fetch. -/
theorem C6_counterexample :
    (download_tile_async_fetch
        (fun _ => some { status := 200, isImage := false })).2 = 3 ∧
    (3 : ℕ) ≠ 1 := by
  constructor
  · rfl
  · decide

lemma asyncFetchGo_retry_step (resp : ℕ → Option Response) (r : Response)
    (att fuel : ℕ) (hr : resp att = some r) (h200 : r.status = 200)
    (himg : r.isImage = false) :
    asyncFetchGo resp att (fuel + 1) =
      ((asyncFetchGo resp (att + 1) fuel).1,
       (asyncFetchGo resp (att + 1) fuel).2 + 1) := by
  simp only [asyncFetchGo, hr]
  rw [if_neg (fun hcontra => by
    rw [himg] at hcontra; exact absurd hcontra.2 (by simp))]
  rw [if_pos h200]

/-- Claim C6 (amended): in maps_core.download_single_tile an HTTP 4xx other
than 429, and an accepted response with non-image content-type, are
permanent failures answered after exactly one HTTP request regardless of
max_retries; in maps_async.download_tile_async a non-200 non-429 status
(such as 403) likewise gets exactly one request, but an HTTP 200 with
non-image content-type is retried and consumes all 3 attempts. -/
theorem C6_amended_permanent_failures (resp : ℕ → Option Response)
    (r : Response) (max_retries : ℕ) (h0 : resp 0 = some r)
    (hm : 1 ≤ max_retries) :
    ((400 ≤ r.status ∧ r.status < 500 ∧ r.status ≠ 429) →
      download_single_tile_fetch resp max_retries = (false, 1)) ∧
    ((r.status < 400 ∧ r.isImage = false) →
      download_single_tile_fetch resp max_retries = (false, 1)) ∧
    ((r.status ≠ 200 ∧ r.status ≠ 429) →
      download_tile_async_fetch resp = (false, 1)) ∧
    ((∀ n, resp n = some r) → r.status = 200 → r.isImage = false →
      download_tile_async_fetch resp = (false, 3)) := by
  obtain ⟨m, rfl⟩ : ∃ m, max_retries = m + 1 := ⟨max_retries - 1, by omega⟩
  refine ⟨?_, ?_, ?_, ?_⟩
  · rintro ⟨h1, h2, h3⟩
    unfold download_single_tile_fetch
    simp only [coreFetchGo, h0]
    rw [if_neg (by omega), if_pos ⟨h1, h2, h3⟩]
  · rintro ⟨h1, h2⟩
    unfold download_single_tile_fetch
    simp only [coreFetchGo, h0]
    rw [if_pos h1, h2]
    simp
  · rintro ⟨h1, h2⟩
    unfold download_tile_async_fetch
    simp only [asyncFetchGo, h0]
    rw [if_neg (fun hcontra => h1 hcontra.1), if_neg h1, if_neg h2]
  · intro hall h200 himg
    unfold download_tile_async_fetch
    rw [asyncFetchGo_retry_step resp r 0 2 (hall 0) h200 himg,
      asyncFetchGo_retry_step resp r 1 1 (hall 1) h200 himg,
      asyncFetchGo_retry_step resp r 2 0 (hall 2) h200 himg]
    rfl

/-- Witness for claim C6: an HTTP 403 answered by either fetcher costs
exactly one request; a constant HTTP 200 text response costs the async
fetcher all three attempts. -/
theorem C6_witness :
    download_single_tile_fetch
        (fun _ => some { status := 403, isImage := false }) 3 = (false, 1) ∧
    download_tile_async_fetch
        (fun _ => some { status := 403, isImage := false }) = (false, 1) ∧
    download_tile_async_fetch
        (fun _ => some { status := 200, isImage := false }) = (false, 3) := by
  have h1 := C6_amended_permanent_failures
    (fun _ => some { status := 403, isImage := false })
    { status := 403, isImage := false } 3 rfl (by decide)
  have h2 := C6_amended_permanent_failures
    (fun _ => some { status := 200, isImage := false })
    { status := 200, isImage := false } 3 rfl (by decide)
  exact ⟨h1.1 (by decide), h1.2.2.1 (by decide),
    h2.2.2.2 (fun n => rfl) rfl rfl⟩

lemma sin_bound_85 (lat : ℝ) (h1 : -85 ≤ lat) (h2 : lat ≤ 85) :
    |Real.sin (lat * Real.pi / 180)| ≤ 0.9999 := by
  have hπ := Real.pi_pos
  set θ := lat * Real.pi / 180 with hθ
  have habs : |θ| ≤ 85 * Real.pi / 180 := by
    have hlat : |lat| ≤ 85 := abs_le.mpr ⟨h1, h2⟩
    have : |θ| = |lat| * Real.pi / 180 := by
      rw [hθ, abs_div, abs_mul, abs_of_pos hπ]
      norm_num
    rw [this]
    have hmul : |lat| * Real.pi ≤ 85 * Real.pi :=
      mul_le_mul_of_nonneg_right hlat hπ.le
    linarith
  have hhalf : 85 * Real.pi / 180 ≤ Real.pi / 2 := by linarith
  have hs : |Real.sin θ| = Real.sin |θ| := by
    rcases le_or_lt 0 θ with h | h
    · rw [abs_of_nonneg h,
        abs_of_nonneg (Real.sin_nonneg_of_nonneg_of_le_pi h (by
          have := abs_of_nonneg h ▸ habs
          linarith))]
    · have hgt : -Real.pi < θ := by
        have := (abs_le.mp habs).1
        linarith
      rw [abs_of_neg h,
        abs_of_neg (Real.sin_neg_of_neg_of_neg_pi_lt h hgt), Real.sin_neg]
  rw [hs]
  have hmono : Real.sin |θ| ≤ Real.sin (85 * Real.pi / 180) := by
    rcases eq_or_lt_of_le habs with he | hlt
    · rw [he]
    · exact le_of_lt (Real.strictMonoOn_sin
        (Set.mem_Icc.mpr ⟨by linarith [abs_nonneg θ], by linarith⟩)
        (Set.mem_Icc.mpr ⟨by linarith, hhalf⟩) hlt)
  have heq : Real.sin (85 * Real.pi / 180) = Real.cos (Real.pi / 36) := by
    rw [← Real.sin_pi_div_two_sub]
    congr 1
    ring
  have hcos : Real.cos (Real.pi / 36) ≤
      1 - 2 / Real.pi ^ 2 * (Real.pi / 36) ^ 2 := by
    apply Real.cos_le_one_sub_mul_cos_sq
    rw [abs_of_pos (by positivity)]
    linarith
  have hval : 2 / Real.pi ^ 2 * (Real.pi / 36) ^ 2 = 1 / 648 := by
    field_simp
    ring
  rw [hval] at hcos
  linarith

lemma latlon_roundtrip_exact (lat lon : ℝ) (zoom : ℕ)
    (h1 : -85 ≤ lat) (h2 : lat ≤ 85) :
    pixel_to_latlon (latlon_to_pixel lat lon zoom).1
      (latlon_to_pixel lat lon zoom).2 zoom = (lat, lon) := by
  have hπ := Real.pi_pos
  have hθlo : -(Real.pi / 2) ≤ lat * Real.pi / 180 := by
    nlinarith [mul_nonneg (by linarith : (0:ℝ) ≤ lat + 85) hπ.le]
  have hθhi : lat * Real.pi / 180 ≤ Real.pi / 2 := by
    nlinarith [mul_nonneg (by linarith : (0:ℝ) ≤ 85 - lat) hπ.le]
  have hW : (0:ℝ) < 256 * 2 ^ zoom := by positivity
  have hsb : |Real.sin (lat * Real.pi / 180)| ≤ 0.9999 := sin_bound_85 lat h1 h2
  set s := Real.sin (lat * Real.pi / 180) with hs_def
  have hsle : s ≤ 0.9999 := (abs_le.mp hsb).2
  have hsge : -0.9999 ≤ s := (abs_le.mp hsb).1
  have hclamp : max (-0.9999) (min 0.9999 s) = s := by
    rw [min_eq_right hsle, max_eq_right hsge]
  have h1s : (0:ℝ) < 1 + s := by linarith
  have h2s : (0:ℝ) < 1 - s := by linarith
  have hu : (0:ℝ) < (1 + s) / (1 - s) := div_pos h1s h2s
  set W : ℝ := 256 * 2 ^ zoom with hW_def
  have hn : Real.pi - 2 * Real.pi *
      ((0.5 - Real.log ((1 + s) / (1 - s)) / (4 * Real.pi)) * W) / W =
      Real.log ((1 + s) / (1 - s)) / 2 := by
    field_simp [hW.ne']
    ring
  set v := Real.sqrt ((1 + s) / (1 - s)) with hv_def
  have hv : 0 < v := Real.sqrt_pos.mpr hu
  have hv2 : v ^ 2 = (1 + s) / (1 - s) := Real.sq_sqrt hu.le
  have hlog : Real.log ((1 + s) / (1 - s)) / 2 = Real.log v := by
    rw [← hv2, Real.log_pow]
    push_cast
    ring
  have hsinh : Real.sinh (Real.log v) = (v - v⁻¹) / 2 := by
    rw [Real.sinh_eq, Real.exp_log hv, Real.exp_neg, Real.exp_log hv]
  have ha : (0:ℝ) < Real.sqrt (1 + s) := Real.sqrt_pos.mpr h1s
  have hb : (0:ℝ) < Real.sqrt (1 - s) := Real.sqrt_pos.mpr h2s
  have hsq : Real.sqrt (1 - s ^ 2) = Real.sqrt (1 - s) * Real.sqrt (1 + s) := by
    rw [show (1:ℝ) - s ^ 2 = (1 - s) * (1 + s) by ring, Real.sqrt_mul h2s.le]
  have hvalt : v = Real.sqrt (1 + s) / Real.sqrt (1 - s) := by
    rw [hv_def, Real.sqrt_div h1s.le]
  have hvv : (v - v⁻¹) / 2 = s / Real.sqrt (1 - s ^ 2) := by
    rw [hvalt, hsq]
    have hA := Real.mul_self_sqrt h1s.le
    have hB := Real.mul_self_sqrt h2s.le
    field_simp
    nlinarith [hA, hB]
  have harc : Real.arctan (s / Real.sqrt (1 - s ^ 2)) = Real.arcsin s := by
    rw [← Real.tan_arcsin]
    exact Real.arctan_tan
      (Real.neg_pi_div_two_lt_arcsin.mpr (by linarith))
      (Real.arcsin_lt_pi_div_two.mpr (by linarith))
  have hback : Real.arcsin s = lat * Real.pi / 180 := by
    rw [hs_def]
    exact Real.arcsin_sin hθlo hθhi
  unfold latlon_to_pixel pixel_to_latlon
  dsimp only
  rw [hclamp, Prod.mk.injEq]
  constructor
  · rw [hn, hlog, hsinh, hvv, harc, hback]
    field_simp
  · field_simp [hW.ne']
    ring

/-- Claim C5: for every latitude in [-85, 85], every longitude and every
zoom level, pixel_to_latlon recovers from latlon_to_pixel the original
coordinates to within 1e-6 degrees (in exact real arithmetic the round
trip is exact: the clamp of sin(lat) to [-0.9999, 0.9999] is inactive on
this latitude range). -/
theorem C5_projection_roundtrip (lat lon : ℝ) (zoom : ℕ)
    (h1 : -85 ≤ lat) (h2 : lat ≤ 85) :
    |(pixel_to_latlon (latlon_to_pixel lat lon zoom).1
        (latlon_to_pixel lat lon zoom).2 zoom).1 - lat| ≤ 1e-6 ∧
    |(pixel_to_latlon (latlon_to_pixel lat lon zoom).1
        (latlon_to_pixel lat lon zoom).2 zoom).2 - lon| ≤ 1e-6 := by
  rw [latlon_roundtrip_exact lat lon zoom h1 h2]
  norm_num

/-- Witness for claim C5 at lat = 0, lon = 0, zoom = 0. -/
theorem C5_witness :
    |(pixel_to_latlon (latlon_to_pixel 0 0 0).1
        (latlon_to_pixel 0 0 0).2 0).1 - 0| ≤ 1e-6 ∧
    |(pixel_to_latlon (latlon_to_pixel 0 0 0).1
        (latlon_to_pixel 0 0 0).2 0).2 - 0| ≤ 1e-6 :=
  C5_projection_roundtrip 0 0 0 (by norm_num) (by norm_num)

end GmapsGen
